import Mathlib

/-!
Verification of the repartition execution core of Citus
(`src/backend/distributed/executor/adaptive_executor_repartioning.c` and
`src/backend/distributed/executor/repartition_logic.c`).

The development shallowly embeds the C code: Postgres `List *` values become
Lean lists, the completed-task hash table becomes a duplicate-free list of
keys with the same `HASH_FIND` / `HASH_ENTER` semantics, and the external
collaborators (the multi-task executor `ExecuteTaskList`, the DAG expansion
`TaskAndExecutionList`, the worker list `ActiveReadableNodeList`) become
explicit parameters.  Fallible C behaviour (assertion failures, null
dereference through `linitial` on an empty list, `ereport` aborts) is made
explicit with `Except` / outcome values.
-/

namespace Citus

/-- A shard placement: worker node name and port
(the fields of `ShardPlacement` read by this core). -/
structure Placement where
  nodeName : String
  nodePort : Nat
deriving DecidableEq, Repr

/-- The task types this core distinguishes (`MAP_TASK`, `MAP_OUTPUT_FETCH_TASK`,
`MERGE_TASK`, plus the plain SQL task types used by non-repartition paths). -/
inductive TaskType where
  | sqlTask
  | mapTask
  | mapOutputFetchTask
  | mergeTask
deriving DecidableEq, Repr

/-- The `Task` struct fields read by this core.  `dependedTaskList` holds the
task values this task waits on, as in the C code where it holds `Task *`
pointers. -/
inductive Task where
  | mk (jobId : Nat) (taskId : Nat) (taskType : TaskType)
       (dependedTaskList : List Task) (queryString : String)
       (taskPlacementList : List Placement)
       (partitionId : Nat) (upstreamTaskId : Nat) : Task

def Task.jobId : Task → Nat
  | .mk j _ _ _ _ _ _ _ => j

def Task.taskId : Task → Nat
  | .mk _ i _ _ _ _ _ _ => i

def Task.taskType : Task → TaskType
  | .mk _ _ ty _ _ _ _ _ => ty

def Task.dependedTaskList : Task → List Task
  | .mk _ _ _ deps _ _ _ _ => deps

def Task.queryString : Task → String
  | .mk _ _ _ _ q _ _ _ => q

def Task.taskPlacementList : Task → List Placement
  | .mk _ _ _ _ _ pl _ _ => pl

def Task.partitionId : Task → Nat
  | .mk _ _ _ _ _ _ p _ => p

def Task.upstreamTaskId : Task → Nat
  | .mk _ _ _ _ _ _ _ u => u

/-- `TaskHashKey`: the pair (jobId, taskId). -/
abbrev TaskKey := Nat × Nat

/-- `FillTaskKey`: the key of a task is the pair of its job id and task id. -/
def taskKey (t : Task) : TaskKey := (t.jobId, t.taskId)

/-- The completed-task hash table, modelled as the list of keys it holds. -/
abbrev CompletedSet := List TaskKey

/-- `hash_search(..., HASH_FIND, ...)`: membership test. -/
def hashFind (completed : CompletedSet) (k : TaskKey) : Bool :=
  completed.contains k

/-- `hash_search(..., HASH_ENTER, ...)`: returns whether the key was already
present, and the table with the key inserted. -/
def hashEnter (completed : CompletedSet) (k : TaskKey) : Bool × CompletedSet :=
  if completed.contains k then (true, completed) else (false, completed ++ [k])

/-- `IsAllDependencyCompleted`: every entry of `dependedTaskList` has its key
in the completed set (`HASH_FIND` only, no mutation). -/
def IsAllDependencyCompleted (t : Task) (completed : CompletedSet) : Bool :=
  t.dependedTaskList.all fun d => hashFind completed (taskKey d)

/-- `IsTaskAlreadyCompleted`: note that the C code uses `HASH_ENTER`, so the
membership test also inserts the key. -/
def IsTaskAlreadyCompleted (t : Task) (completed : CompletedSet) :
    Bool × CompletedSet :=
  hashEnter completed (taskKey t)

/-- `AddCompletedTasks`: enter every task's key into the completed set. -/
def AddCompletedTasks (tasks : List Task) (completed : CompletedSet) :
    CompletedSet :=
  tasks.foldl (fun s t => (hashEnter s (taskKey t)).2) completed

/-- One pass of the `foreach(taskCell, allTasks)` scan inside
`ExecuteTasksInDependencyOrder`: collects `curTasks` in scan order and
threads the completed-task table through (the table is mutated by the
`HASH_ENTER` inside `IsTaskAlreadyCompleted`). -/
def scanTasks : List Task → CompletedSet → List Task × CompletedSet
  | [], completed => ([], completed)
  | task :: rest, completed =>
    if IsAllDependencyCompleted task completed then
      match IsTaskAlreadyCompleted task completed with
      | (true, completed1) => scanTasks rest completed1
      | (false, completed1) =>
        let r := scanTasks rest completed1
        (task :: r.1, r.2)
    else
      scanTasks rest completed

/-- Outcome of a scheduler run: normal exit on an empty batch, abort because
`ExecuteTaskList` reported a failure, or fuel exhaustion (an artifact of the
embedding; shown below never to occur with the fuel used). -/
inductive SchedOutcome where
  | ok
  | execFailed
  | outOfFuel
deriving DecidableEq, Repr

/-- Result of a scheduler run: the batches handed to `ExecuteTaskList` in
order (including a final failing batch, which the C code hands to the
executor before the error propagates), the final completed-task table, and
the outcome. -/
structure SchedResult where
  waves : List (List Task)
  completed : CompletedSet
  outcome : SchedOutcome

/-- The `while (true)` loop of `ExecuteTasksInDependencyOrder`.  `execOk`
models the external `ExecuteTaskList` collaborator: whether dispatching the
given batch succeeds (on failure the C code's `ereport` aborts the run). -/
def schedLoop (execOk : List Task → Bool) (allTasks : List Task) :
    Nat → CompletedSet → SchedResult
  | 0, completed => ⟨[], completed, .outOfFuel⟩
  | fuel + 1, completed =>
    let r := scanTasks allTasks completed
    if r.1.isEmpty then
      ⟨[], completed, .ok⟩
    else if execOk r.1 then
      let res := schedLoop execOk allTasks fuel (AddCompletedTasks r.1 r.2)
      ⟨r.1 :: res.waves, res.completed, res.outcome⟩
    else
      ⟨[r.1], r.2, .execFailed⟩

/-- `ExecuteTasksInDependencyOrder`: create the empty completed-task table,
seed it with the top-level tasks' keys, then drain the DAG wave by wave.
The fuel `allTasks.length + 1` is shown sufficient below
(`schedLoop_no_fuel_exhaustion`). -/
def ExecuteTasksInDependencyOrder (execOk : List Task → Bool)
    (allTasks topLevelTasks : List Task) : SchedResult :=
  schedLoop execOk allTasks (allTasks.length + 1)
    (AddCompletedTasks topLevelTasks [])

/-- `FillTaskGroups`: the fetch-task subset of a task list, in order. -/
def fetchTaskGroup (allTasks : List Task) : List Task :=
  allTasks.filter fun t => t.taskType = .mapOutputFetchTask

/-- `FillTaskGroups`: the merge-task subset of a task list, in order. -/
def mergeTaskGroup (allTasks : List Task) : List Task :=
  allTasks.filter fun t => t.taskType = .mergeTask

/-- Errors of the fetch-command synthesis pass: a crash models the undefined
behaviour of `linitial` on an empty Postgres list (null-pointer dereference),
an assertion failure models a failed `Assert` in an assert-enabled build. -/
inductive SynthError where
  | crash
  | assertionFailure
deriving DecidableEq, Repr

/-- Modelled from the spec: the literal text of the `MAP_OUTPUT_FETCH_COMMAND`
template is defined in a header outside the given sources; per the spec it is
a fixed command template with positional substitution of, in order, the
producing job id, producing task id, partition identifier, destination merge
task id, and the chosen source node name and port. -/
def MAP_OUTPUT_FETCH_COMMAND (jobId taskId partitionFileId mergeTaskId : Nat)
    (nodeName : String) (nodePort : Nat) : String :=
  "SELECT worker_fetch_partition_file (" ++ toString jobId ++ ", " ++
    toString taskId ++ ", " ++ toString partitionFileId ++ ", " ++
    toString mergeTaskId ++ ", '" ++ nodeName ++ "', " ++
    toString nodePort ++ ")"

/-- `MapFetchTaskQueryString`: build the fetch command from the fetch task and
its producing map task.  Faithful to the C code's order of operations:
`linitial` on the placement list first (crash on an empty list), then the two
`Assert`s (compiled in only when assertions are enabled), then the
`appendStringInfo` with the template parameters in fixed order. -/
def MapFetchTaskQueryString (assertsEnabled : Bool)
    (mapFetchTask mapTask : Task) : Except SynthError String :=
  match mapTask.taskPlacementList with
  | [] => .error .crash
  | mapTaskPlacement :: _ =>
    if assertsEnabled && !(mapFetchTask.taskType == TaskType.mapOutputFetchTask) then
      .error .assertionFailure
    else if assertsEnabled && !(mapTask.taskType == TaskType.mapTask) then
      .error .assertionFailure
    else
      .ok (MAP_OUTPUT_FETCH_COMMAND mapTask.jobId mapTask.taskId
        mapFetchTask.partitionId mapFetchTask.upstreamTaskId
        mapTaskPlacement.nodeName mapTaskPlacement.nodePort)

/-- Assignment `task->queryString = mapFetchTaskQueryString->data`. -/
def setQueryString (t : Task) (q : String) : Task :=
  match t with
  | .mk j i ty deps _ pl pid uid => .mk j i ty deps q pl pid uid

/-- `PutMapOutputFetchQueryStrings`: for each fetch task, take the first entry
of its `dependedTaskList` (`linitial`, a crash on an empty list), synthesize
the fetch command and assign it to the task's `queryString`. -/
def PutMapOutputFetchQueryStrings (assertsEnabled : Bool) :
    List Task → Except SynthError (List Task)
  | [] => .ok []
  | task :: rest =>
    match task.dependedTaskList with
    | [] => .error .crash
    | mapTask :: _ =>
      match MapFetchTaskQueryString assertsEnabled task mapTask with
      | .error e => .error e
      | .ok q =>
        match PutMapOutputFetchQueryStrings assertsEnabled rest with
        | .error e => .error e
        | .ok rest1 => .ok (setQueryString task q :: rest1)

/-- `WorkerNode`: the fields read by `SendCommandToAllWorkers`. -/
structure WorkerNode where
  workerName : String
  workerPort : Nat
deriving DecidableEq, Repr

/-- Observable side effects of a run: a
`SendCommandListToWorkerInSingleTransaction` call, or an `ExecuteTaskList`
call dispatching one batch (recorded by task keys). -/
inductive Event where
  | sendToWorker (name : String) (port : Nat) (owner : String)
      (commands : List String)
  | dispatchBatch (batch : List TaskKey)
deriving DecidableEq, Repr

/-- Modelled from the spec: the literal text of `WORKER_CREATE_SCHEMA_QUERY`
is defined outside the given sources; per the spec it is a "create namespace
for job J" statement with the job id substituted positionally. -/
def WORKER_CREATE_SCHEMA_QUERY (jobId : Nat) : String :=
  "CREATE SCHEMA IF NOT EXISTS pg_merge_job_" ++ toString jobId ++ ";"

/-- Modelled from the spec: the literal text of `WORKER_DELETE_JOBDIR_QUERY`
is defined outside the given sources; per the spec it is a "delete job working
directory" statement with the job id substituted positionally. -/
def WORKER_DELETE_JOBDIR_QUERY (jobId : Nat) : String :=
  "SELECT worker_cleanup_job_schema_cache_dir(" ++ toString jobId ++ ");"

/-- `DoesJobIDExist`: linear membership scan over the job-id list. -/
def DoesJobIDExist (jobIds : List Nat) (jobId : Nat) : Bool :=
  jobIds.contains jobId

/-- `CreateJobIds`: distinct job ids of the merge tasks, first-seen order. -/
def CreateJobIds (mergeTasks : List Task) : List Nat :=
  mergeTasks.foldl
    (fun jobIds task =>
      if DoesJobIDExist jobIds task.jobId then jobIds
      else jobIds ++ [task.jobId])
    []

/-- `GenerateCommand`: concatenate one instance of the template per job id. -/
def GenerateCommand (jobIds : List Nat) (templateCommand : Nat → String) :
    String :=
  jobIds.foldl (fun acc jobId => acc ++ templateCommand jobId) ""

/-- `GenerateCreateSchemasCommand`. -/
def GenerateCreateSchemasCommand (jobIds : List Nat) : String :=
  GenerateCommand jobIds WORKER_CREATE_SCHEMA_QUERY

/-- `GenerateDeleteJobsCommand`. -/
def GenerateDeleteJobsCommand (jobIds : List Nat) : String :=
  GenerateCommand jobIds WORKER_DELETE_JOBDIR_QUERY

/-- `SendCommandToAllWorkers`: one
`SendCommandListToWorkerInSingleTransaction` call per active readable worker,
as the extension owner.  The worker list and the owner name are the external
collaborators `ActiveReadableNodeList` / `CitusExtensionOwnerName`. -/
def SendCommandToAllWorkers (workers : List WorkerNode) (owner : String)
    (commandList : List String) : List Event :=
  workers.map fun w =>
    .sendToWorker w.workerName w.workerPort owner commandList

/-- `CreateSchemasOnAllWorkers`: broadcast `list_make1(createSchemasCommand)`. -/
def CreateSchemasOnAllWorkers (workers : List WorkerNode) (owner : String)
    (createSchemasCommand : String) : List Event :=
  SendCommandToAllWorkers workers owner [createSchemasCommand]

/-- `CreateTemporarySchemas` (repartition_logic.c variant): derive the job
ids, build the batched create command, broadcast it, and return the job ids
for later reclamation.  The result pairs the broadcast events with the job-id
list the function returns. -/
def CreateTemporarySchemas (workers : List WorkerNode) (owner : String)
    (mergeTasks : List Task) : List Event × List Nat :=
  let jobIds := CreateJobIds mergeTasks
  let createSchemasCommand := GenerateCreateSchemasCommand jobIds
  (CreateSchemasOnAllWorkers workers owner createSchemasCommand, jobIds)

/-- `RemoveTempJobDirs`: broadcast the batched delete-job-dir command. -/
def RemoveTempJobDirs (workers : List WorkerNode) (owner : String)
    (jobIds : List Nat) : List Event :=
  SendCommandToAllWorkers workers owner [GenerateDeleteJobsCommand jobIds]

/-- Errors of `ExecuteDependedTasks`: the pre-flight modification check, or a
task batch failing in the external executor. -/
inductive RunError where
  | modificationError
  | taskExecutionError
deriving DecidableEq, Repr

/-- The dispatch events of a list of waves, by task key. -/
def dispatchEvents (waves : List (List Task)) : List Event :=
  waves.map fun w => .dispatchBatch (w.map taskKey)

/-- `ExecuteDependedTasks` (repartition_logic.c variant).
`modificationsDone` models the transaction-management flag consulted by
`EnsureNoModificationsHaveBeenDone`, whose body is outside the given sources;
modelled from the spec, it fails the run immediately when a data-modifying
statement already ran in the enclosing unit of work.  `expand` models
`TaskAndExecutionList`.  The result is the trace of observable events in
order, and the run's outcome. -/
def ExecuteDependedTasks (modificationsDone : Bool)
    (workers : List WorkerNode) (owner : String)
    (execOk : List Task → Bool) (expand : List Task → List Task)
    (topLevelTasks : List Task) : List Event × Except RunError Unit :=
  if modificationsDone then
    ([], .error .modificationError)
  else
    let allTasks := expand topLevelTasks
    let mergeTasks := mergeTaskGroup allTasks
    let provision := CreateTemporarySchemas workers owner mergeTasks
    let sched := ExecuteTasksInDependencyOrder execOk allTasks topLevelTasks
    match sched.outcome with
    | .ok =>
      (provision.1 ++ dispatchEvents sched.waves ++
        RemoveTempJobDirs workers owner provision.2, .ok ())
    | _ =>
      (provision.1 ++ dispatchEvents sched.waves, .error .taskExecutionError)

/-- The specification-side dedup: keep the first occurrence of each element,
in first-seen order (used to state what `CreateJobIds` computes). -/
def firstSeenDedup : List Nat → List Nat
  | [] => []
  | x :: xs => x :: firstSeenDedup (xs.filter fun y => y ≠ x)
termination_by l => l.length
decreasing_by
  simp only [List.length_cons]
  exact Nat.lt_succ_of_le (List.length_filter_le _ xs)

/-- Specification-side shape of a batched command: one statement per job id,
concatenated in order. -/
def concatStatements : List Nat → (Nat → String) → String
  | [], _ => ""
  | j :: js, tmpl => tmpl j ++ concatStatements js tmpl

/-! ### Concrete tasks and workers used in the scenario theorems -/

/-- Scenario A: task T1, no dependencies. -/
def T1 : Task := .mk 1 1 .sqlTask [] "q1" [] 0 0

/-- Scenario A: task T2, no dependencies. -/
def T2 : Task := .mk 1 2 .sqlTask [] "q2" [] 0 0

/-- Scenario A: task T3, depending on T1 and T2. -/
def T3 : Task := .mk 1 3 .sqlTask [T1, T2] "q3" [] 0 0

/-- An identity-level dependency cycle: this task has key (2,1) and waits on
key (2,2)… -/
def cyclicA : Task :=
  .mk 2 1 .sqlTask [.mk 2 2 .sqlTask [] "" [] 0 0] "qa" [] 0 0

/-- …and this task has key (2,2) and waits on key (2,1). -/
def cyclicB : Task :=
  .mk 2 2 .sqlTask [.mk 2 1 .sqlTask [] "" [] 0 0] "qb" [] 0 0

/-- A producing map task with two placements (a replicated producer). -/
def mapP : Task :=
  .mk 9 4 .mapTask [] "" [⟨"host1", 1234⟩, ⟨"host2", 5678⟩] 0 0

/-- A well-formed fetch task whose sole dependency is `mapP`. -/
def fetchF : Task := .mk 9 5 .mapOutputFetchTask [mapP] "" [] 3 7

/-- A malformed fetch task: its type is merge, not output-fetch. -/
def fetchWrongType : Task := .mk 9 6 .mergeTask [mapP] "" [] 3 7

/-- A malformed fetch task with two dependency entries instead of one. -/
def fetchTwoDeps : Task := .mk 9 7 .mapOutputFetchTask [mapP, mapP] "" [] 3 7

/-- Scenario C: merge tasks with job ids 5, 5, 7. -/
def M5a : Task := .mk 5 1 .mergeTask [] "" [] 0 0

/-- Scenario C: second merge task of job 5. -/
def M5b : Task := .mk 5 2 .mergeTask [] "" [] 0 0

/-- Scenario C: merge task of job 7. -/
def M7 : Task := .mk 7 1 .mergeTask [] "" [] 0 0

/-- A worker node for the broadcast scenarios. -/
def worker1 : WorkerNode := ⟨"worker-1", 5432⟩

/-! ### Basic lemmas about the completed-set operations -/

theorem hashFind_iff (s : CompletedSet) (k : TaskKey) :
    hashFind s k = true ↔ k ∈ s := by
  simp [hashFind, List.elem_iff]

theorem hashEnter_of_mem (s : CompletedSet) (k : TaskKey) (h : k ∈ s) :
    hashEnter s k = (true, s) := by
  simp [hashEnter, h]

theorem hashEnter_of_not_mem (s : CompletedSet) (k : TaskKey)
    (h : k ∉ s) : hashEnter s k = (false, s ++ [k]) := by
  simp [hashEnter, h]

theorem mem_hashEnter_snd (s : CompletedSet) (k k' : TaskKey) :
    k' ∈ (hashEnter s k).2 ↔ k' ∈ s ∨ k' = k := by
  by_cases h : k ∈ s
  · rw [hashEnter_of_mem s k h]
    constructor
    · exact fun hm => Or.inl hm
    · rintro (hm | rfl) <;> [exact hm; exact h]
  · rw [hashEnter_of_not_mem s k h]
    simp

theorem mem_AddCompletedTasks (tasks : List Task) (s : CompletedSet)
    (k : TaskKey) :
    k ∈ AddCompletedTasks tasks s ↔ k ∈ s ∨ k ∈ tasks.map taskKey := by
  induction tasks generalizing s with
  | nil => simp [AddCompletedTasks]
  | cons t rest ih =>
    simp only [AddCompletedTasks, List.foldl_cons] at *
    rw [ih]
    rw [mem_hashEnter_snd]
    simp only [List.map_cons, List.mem_cons]
    tauto

theorem AddCompletedTasks_eq_of_subset (tasks : List Task) (s : CompletedSet)
    (h : ∀ t ∈ tasks, taskKey t ∈ s) : AddCompletedTasks tasks s = s := by
  induction tasks generalizing s with
  | nil => rfl
  | cons t rest ih =>
    simp only [AddCompletedTasks, List.foldl_cons]
    rw [hashEnter_of_mem s (taskKey t) (h t (by simp))]
    exact ih s fun u hu => h u (by simp [hu])

/-! ### Lemmas about one readiness scan -/

theorem scanTasks_cons_skip (u : Task) (rest : List Task) (s : CompletedSet)
    (h : ¬IsAllDependencyCompleted u s = true) :
    scanTasks (u :: rest) s = scanTasks rest s := by
  simp [scanTasks, h]

theorem scanTasks_cons_found (u : Task) (rest : List Task) (s : CompletedSet)
    (h : IsAllDependencyCompleted u s = true) (hmem : taskKey u ∈ s) :
    scanTasks (u :: rest) s = scanTasks rest s := by
  simp only [scanTasks, h, if_true, IsTaskAlreadyCompleted,
    hashEnter_of_mem s (taskKey u) hmem]

theorem scanTasks_cons_new (u : Task) (rest : List Task) (s : CompletedSet)
    (h : IsAllDependencyCompleted u s = true) (hmem : taskKey u ∉ s) :
    scanTasks (u :: rest) s =
      (u :: (scanTasks rest (s ++ [taskKey u])).1,
        (scanTasks rest (s ++ [taskKey u])).2) := by
  simp only [scanTasks, h, if_true, IsTaskAlreadyCompleted,
    hashEnter_of_not_mem s (taskKey u) hmem]

theorem scanTasks_snd_eq (ts : List Task) (s : CompletedSet) :
    (scanTasks ts s).2 = s ++ ((scanTasks ts s).1).map taskKey := by
  induction ts generalizing s with
  | nil => simp [scanTasks]
  | cons t rest ih =>
    by_cases hready : IsAllDependencyCompleted t s = true
    · by_cases hmem : taskKey t ∈ s
      · rw [scanTasks_cons_found t rest s hready hmem]
        exact ih s
      · rw [scanTasks_cons_new t rest s hready hmem]
        simp only [List.map_cons]
        rw [ih (s ++ [taskKey t])]
        simp
    · rw [scanTasks_cons_skip t rest s hready]
      exact ih s

theorem scanTasks_batch_subset (ts : List Task) (s : CompletedSet) :
    ∀ t ∈ (scanTasks ts s).1, t ∈ ts := by
  induction ts generalizing s with
  | nil => simp [scanTasks]
  | cons t rest ih =>
    intro u hu
    by_cases hready : IsAllDependencyCompleted t s = true
    · by_cases hmem : taskKey t ∈ s
      · rw [scanTasks_cons_found t rest s hready hmem] at hu
        exact List.mem_cons_of_mem t (ih s u hu)
      · rw [scanTasks_cons_new t rest s hready hmem] at hu
        rcases List.mem_cons.mp hu with rfl | hu1
        · exact List.mem_cons_self _ _
        · exact List.mem_cons_of_mem t (ih (s ++ [taskKey t]) u hu1)
    · rw [scanTasks_cons_skip t rest s hready] at hu
      exact List.mem_cons_of_mem t (ih s u hu)

theorem scanTasks_batch_fresh (ts : List Task) (s : CompletedSet) :
    ∀ t ∈ (scanTasks ts s).1, taskKey t ∉ s := by
  induction ts generalizing s with
  | nil => simp [scanTasks]
  | cons t rest ih =>
    intro u hu
    by_cases hready : IsAllDependencyCompleted t s = true
    · by_cases hmem : taskKey t ∈ s
      · rw [scanTasks_cons_found t rest s hready hmem] at hu
        exact ih s u hu
      · rw [scanTasks_cons_new t rest s hready hmem] at hu
        rcases List.mem_cons.mp hu with rfl | hu1
        · exact hmem
        · intro hus
          exact ih (s ++ [taskKey t]) u hu1 (List.mem_append_left _ hus)
    · rw [scanTasks_cons_skip t rest s hready] at hu
      exact ih s u hu

theorem scanTasks_batch_nodup (ts : List Task) (s : CompletedSet) :
    (((scanTasks ts s).1).map taskKey).Nodup := by
  induction ts generalizing s with
  | nil => simp [scanTasks]
  | cons t rest ih =>
    by_cases hready : IsAllDependencyCompleted t s = true
    · by_cases hmem : taskKey t ∈ s
      · rw [scanTasks_cons_found t rest s hready hmem]
        exact ih s
      · rw [scanTasks_cons_new t rest s hready hmem]
        simp only [List.map_cons]
        refine List.nodup_cons.mpr ⟨?_, ih (s ++ [taskKey t])⟩
        intro hk
        rcases List.mem_map.mp hk with ⟨u, hu, hku⟩
        refine scanTasks_batch_fresh rest (s ++ [taskKey t]) u hu ?_
        refine List.mem_append_right _ ?_
        rw [hku]
        exact List.mem_singleton_self _
    · rw [scanTasks_cons_skip t rest s hready]
      exact ih s

theorem scanTasks_empty_stuck (ts : List Task) (s : CompletedSet)
    (h : (scanTasks ts s).1 = []) :
    ∀ t ∈ ts, IsAllDependencyCompleted t s = false ∨ taskKey t ∈ s := by
  induction ts generalizing s with
  | nil => simp
  | cons t rest ih =>
    by_cases hready : IsAllDependencyCompleted t s = true
    · by_cases hmem : taskKey t ∈ s
      · rw [scanTasks_cons_found t rest s hready hmem] at h
        intro u hu
        rcases List.mem_cons.mp hu with rfl | hu1
        · exact Or.inr hmem
        · exact ih s h u hu1
      · rw [scanTasks_cons_new t rest s hready hmem] at h
        exact absurd h (List.cons_ne_nil _ _)
    · rw [scanTasks_cons_skip t rest s hready] at h
      intro u hu
      rcases List.mem_cons.mp hu with rfl | hu1
      · exact Or.inl (Bool.eq_false_iff.mpr hready)
      · exact ih s h u hu1

theorem scanTasks_deps (ts : List Task) (s : CompletedSet) :
    ∀ pre t post, (scanTasks ts s).1 = pre ++ t :: post →
      ∀ d ∈ t.dependedTaskList,
        taskKey d ∈ s ∨ taskKey d ∈ pre.map taskKey := by
  induction ts generalizing s with
  | nil => intro pre t post h; simp [scanTasks] at h
  | cons u rest ih =>
    intro pre t post h d hd
    by_cases hready : IsAllDependencyCompleted u s = true
    · by_cases hmem : taskKey u ∈ s
      · rw [scanTasks_cons_found u rest s hready hmem] at h
        exact ih s pre t post h d hd
      · rw [scanTasks_cons_new u rest s hready hmem] at h
        simp only at h
        cases pre with
        | nil =>
          rw [List.nil_append] at h
          have h1 := (List.cons.injEq _ _ _ _).mp h
          rw [← h1.1] at hd
          exact Or.inl ((hashFind_iff s (taskKey d)).mp
            ((List.all_eq_true.mp hready) d hd))
        | cons p pre1 =>
          rw [List.cons_append] at h
          have h1 := (List.cons.injEq _ _ _ _).mp h
          rcases ih (s ++ [taskKey u]) pre1 t post h1.2 d hd with hin | hin
          · rcases List.mem_append.mp hin with hin1 | hin1
            · exact Or.inl hin1
            · right
              rw [List.mem_singleton] at hin1
              rw [List.map_cons, hin1, h1.1]
              exact List.mem_cons_self _ _
          · right
            rw [List.map_cons]
            exact List.mem_cons.mpr (Or.inr hin)
    · rw [scanTasks_cons_skip u rest s hready] at h
      exact ih s pre t post h d hd

/-! ### Lemmas about the scheduler loop -/

/-- The keys entered during the scan are exactly the batched keys, so the
`AddCompletedTasks` after a successful dispatch is a no-op on the table. -/
theorem AddCompletedTasks_scan (all : List Task) (s : CompletedSet) :
    AddCompletedTasks (scanTasks all s).1 (scanTasks all s).2 =
      (scanTasks all s).2 := by
  apply AddCompletedTasks_eq_of_subset
  intro t ht
  rw [scanTasks_snd_eq]
  exact List.mem_append_right _ (List.mem_map_of_mem _ ht)

theorem schedLoop_succ_empty (execOk : List Task → Bool)
    (all : List Task) (fuel : Nat) (s : CompletedSet)
    (h : (scanTasks all s).1 = []) :
    schedLoop execOk all (fuel + 1) s = ⟨[], s, .ok⟩ := by
  simp [schedLoop, h]

theorem schedLoop_succ_exec (execOk : List Task → Bool)
    (all : List Task) (fuel : Nat) (s : CompletedSet)
    (h : (scanTasks all s).1 ≠ [])
    (hexec : execOk (scanTasks all s).1 = true) :
    schedLoop execOk all (fuel + 1) s =
      ⟨(scanTasks all s).1 ::
          (schedLoop execOk all fuel (scanTasks all s).2).waves,
        (schedLoop execOk all fuel (scanTasks all s).2).completed,
        (schedLoop execOk all fuel (scanTasks all s).2).outcome⟩ := by
  rw [← AddCompletedTasks_scan all s]
  simp [schedLoop, List.isEmpty_iff, h, hexec]

theorem schedLoop_succ_fail (execOk : List Task → Bool)
    (all : List Task) (fuel : Nat) (s : CompletedSet)
    (h : (scanTasks all s).1 ≠ [])
    (hexec : ¬execOk (scanTasks all s).1 = true) :
    schedLoop execOk all (fuel + 1) s =
      ⟨[(scanTasks all s).1], (scanTasks all s).2, .execFailed⟩ := by
  simp [schedLoop, List.isEmpty_iff, h, hexec]

/-- Loop invariants: the final completed set is the initial one plus exactly
the dispatched keys; dispatched keys are fresh and duplicate-free; dispatched
tasks come from the task collection; waves are nonempty. -/
theorem schedLoop_spec (execOk : List Task → Bool) (all : List Task) :
    ∀ fuel s,
      (schedLoop execOk all fuel s).completed =
        s ++ ((schedLoop execOk all fuel s).waves.flatten).map taskKey ∧
      (∀ k ∈ ((schedLoop execOk all fuel s).waves.flatten).map taskKey,
        k ∉ s) ∧
      (((schedLoop execOk all fuel s).waves.flatten).map taskKey).Nodup ∧
      (∀ t ∈ (schedLoop execOk all fuel s).waves.flatten, t ∈ all) ∧
      (∀ w ∈ (schedLoop execOk all fuel s).waves, w ≠ []) := by
  intro fuel
  induction fuel with
  | zero =>
    intro s
    refine ⟨by simp [schedLoop], by simp [schedLoop], by simp [schedLoop],
      by simp [schedLoop], by simp [schedLoop]⟩
  | succ fuel ih =>
    intro s
    by_cases hempty : (scanTasks all s).1 = []
    · rw [schedLoop_succ_empty execOk all fuel s hempty]
      refine ⟨by simp, by simp, by simp, by simp, by simp⟩
    · by_cases hexec : execOk (scanTasks all s).1 = true
      · rw [schedLoop_succ_exec execOk all fuel s hempty hexec]
        obtain ⟨ihc, ihf, ihn, ihs, ihw⟩ := ih (scanTasks all s).2
        have hsnd := scanTasks_snd_eq all s
        constructor
        · simp only [List.flatten_cons, List.map_append]
          rw [ihc, hsnd]
          simp [List.append_assoc]
        constructor
        · intro k hk
          simp only [List.flatten_cons, List.map_append, List.mem_append] at hk
          rcases hk with hk | hk
          · rcases List.mem_map.mp hk with ⟨u, hu, rfl⟩
            exact scanTasks_batch_fresh all s u hu
          · intro hks
            exact ihf k hk (by rw [hsnd]; exact List.mem_append_left _ hks)
        constructor
        · simp only [List.flatten_cons, List.map_append]
          rw [List.nodup_append]
          refine ⟨scanTasks_batch_nodup all s, ihn, ?_⟩
          intro k hk hk2
          exact ihf k hk2 (by rw [hsnd]; exact List.mem_append_right _ hk)
        constructor
        · intro t ht
          simp only [List.flatten_cons, List.mem_append] at ht
          rcases ht with ht | ht
          · exact scanTasks_batch_subset all s t ht
          · exact ihs t ht
        · intro w hw
          rcases List.mem_cons.mp hw with rfl | hw1
          · exact hempty
          · exact ihw w hw1
      · rw [schedLoop_succ_fail execOk all fuel s hempty hexec]
        have hsnd := scanTasks_snd_eq all s
        refine ⟨by simpa using hsnd, ?_, ?_, ?_, ?_⟩
        · intro k hk
          simp only [List.flatten_cons, List.flatten_nil, List.append_nil] at hk
          rcases List.mem_map.mp hk with ⟨u, hu, rfl⟩
          exact scanTasks_batch_fresh all s u hu
        · simpa using scanTasks_batch_nodup all s
        · intro t ht
          simp only [List.flatten_cons, List.flatten_nil, List.append_nil] at ht
          exact scanTasks_batch_subset all s t ht
        · intro w hw
          rcases List.mem_singleton.mp hw with rfl
          exact hempty

/-- Dependency ordering of the dispatched waves: every dependency of a
dispatched task was either already in the completed set at loop entry, or was
dispatched in a strictly earlier wave, or earlier in the same wave. -/
theorem schedLoop_deps (execOk : List Task → Bool) (all : List Task) :
    ∀ fuel s pre w rest wpre t wpost,
      (schedLoop execOk all fuel s).waves = pre ++ w :: rest →
      w = wpre ++ t :: wpost →
      ∀ d ∈ t.dependedTaskList,
        taskKey d ∈ s ∨ taskKey d ∈ (pre.flatten ++ wpre).map taskKey := by
  intro fuel
  induction fuel with
  | zero =>
    intro s pre w rest wpre t wpost h
    simp [schedLoop] at h
  | succ fuel ih =>
    intro s pre w rest wpre t wpost h hw d hd
    by_cases hempty : (scanTasks all s).1 = []
    · rw [schedLoop_succ_empty execOk all fuel s hempty] at h
      simp at h
    · by_cases hexec : execOk (scanTasks all s).1 = true
      · rw [schedLoop_succ_exec execOk all fuel s hempty hexec] at h
        simp only at h
        cases pre with
        | nil =>
          rw [List.nil_append] at h
          have h1 := (List.cons.injEq _ _ _ _).mp h
          have hscan := scanTasks_deps all s wpre t wpost
            (by rw [h1.1, hw]) d hd
          rcases hscan with hin | hin
          · exact Or.inl hin
          · right
            simpa using hin
        | cons p pre1 =>
          have h1 := (List.cons.injEq _ _ _ _).mp h
          rcases ih (scanTasks all s).2 pre1 w rest wpre t wpost h1.2 hw d hd
            with hin | hin
          · rw [scanTasks_snd_eq all s] at hin
            rcases List.mem_append.mp hin with hin1 | hin1
            · exact Or.inl hin1
            · right
              simp only [List.flatten_cons, List.append_assoc, List.map_append,
                List.mem_append]
              left
              rw [← h1.1]
              exact hin1
          · right
            simp only [List.flatten_cons, List.append_assoc, List.map_append,
              List.mem_append] at hin ⊢
            tauto
      · rw [schedLoop_succ_fail execOk all fuel s hempty hexec] at h
        simp only at h
        cases pre with
        | nil =>
          rw [List.nil_append] at h
          have h1 := (List.cons.injEq _ _ _ _).mp h
          have hscan := scanTasks_deps all s wpre t wpost
            (by rw [h1.1, hw]) d hd
          rcases hscan with hin | hin
          · exact Or.inl hin
          · right
            simpa using hin
        | cons p pre1 =>
          have h1 := (List.cons.injEq _ _ _ _).mp h
          exact absurd h1.2.symm (by simp)

/-- Helper: filtering with a stronger predicate gives a shorter list. -/
theorem length_filter_mono {α : Type} (l : List α) (p q : α → Bool)
    (himp : ∀ a ∈ l, p a = true → q a = true) :
    (l.filter p).length ≤ (l.filter q).length := by
  induction l with
  | nil => simp
  | cons a l ih =>
    have ih1 := ih fun b hb => himp b (List.mem_cons_of_mem a hb)
    by_cases hp : p a = true
    · rw [List.filter_cons_of_pos hp,
        List.filter_cons_of_pos (himp a (List.mem_cons_self a l) hp)]
      simpa using ih1
    · rw [List.filter_cons_of_neg (by simpa using hp)]
      by_cases hq : q a = true
      · rw [List.filter_cons_of_pos hq]
        exact Nat.le_succ_of_le ih1
      · rw [List.filter_cons_of_neg (by simpa using hq)]
        exact ih1

/-- Helper: filtering with a strictly stronger predicate (witnessed at a
member of the list) gives a strictly shorter list. -/
theorem length_filter_lt {α : Type} (l : List α) (p q : α → Bool)
    (himp : ∀ a ∈ l, p a = true → q a = true)
    (a : α) (ha : a ∈ l) (hqa : q a = true) (hpa : ¬p a = true) :
    (l.filter p).length < (l.filter q).length := by
  induction l with
  | nil => cases ha
  | cons b l ih =>
    have himp1 : ∀ x ∈ l, p x = true → q x = true :=
      fun x hx => himp x (List.mem_cons_of_mem b hx)
    rcases List.mem_cons.mp ha with rfl | ha1
    · rw [List.filter_cons_of_neg (by simpa using hpa),
        List.filter_cons_of_pos hqa]
      exact Nat.lt_succ_of_le (length_filter_mono l p q himp1)
    · have ih1 := ih himp1 ha1
      by_cases hp : p b = true
      · rw [List.filter_cons_of_pos hp,
          List.filter_cons_of_pos (himp b (List.mem_cons_self b l) hp)]
        simpa using ih1
      · rw [List.filter_cons_of_neg (by simpa using hp)]
        by_cases hq : q b = true
        · rw [List.filter_cons_of_pos hq]
          exact Nat.lt_succ_of_lt ih1
        · rw [List.filter_cons_of_neg (by simpa using hq)]
          exact ih1

/-- Fuel sufficiency: with more fuel than there are tasks not yet completed,
the loop never exhausts its fuel — it always reaches the empty-batch exit or
an executor failure. -/
theorem schedLoop_no_fuel_exhaustion (execOk : List Task → Bool)
    (all : List Task) :
    ∀ fuel s,
      (all.filter fun t => !hashFind s (taskKey t)).length < fuel →
      (schedLoop execOk all fuel s).outcome ≠ .outOfFuel := by
  intro fuel
  induction fuel with
  | zero => intro s h; omega
  | succ fuel ih =>
    intro s h
    by_cases hempty : (scanTasks all s).1 = []
    · rw [schedLoop_succ_empty execOk all fuel s hempty]
      simp
    · by_cases hexec : execOk (scanTasks all s).1 = true
      · rw [schedLoop_succ_exec execOk all fuel s hempty hexec]
        simp only
        apply ih
        obtain ⟨t0, ht0⟩ := List.exists_mem_of_ne_nil _ hempty
        have ht0all : t0 ∈ all := scanTasks_batch_subset all s t0 ht0
        have ht0fresh : taskKey t0 ∉ s := scanTasks_batch_fresh all s t0 ht0
        have ht0new : taskKey t0 ∈ (scanTasks all s).2 := by
          rw [scanTasks_snd_eq all s]
          exact List.mem_append_right _ (List.mem_map_of_mem _ ht0)
        have hmono : ∀ a ∈ all,
            (!hashFind (scanTasks all s).2 (taskKey a)) = true →
            (!hashFind s (taskKey a)) = true := by
          intro a _ hna
          simp only [Bool.not_eq_true'] at hna ⊢
          rw [← Bool.not_eq_true] at hna ⊢
          intro hfind
          apply hna
          rw [hashFind_iff] at hfind ⊢
          rw [scanTasks_snd_eq all s]
          exact List.mem_append_left _ hfind
        have hlt := length_filter_lt all
          (fun t => !hashFind (scanTasks all s).2 (taskKey t))
          (fun t => !hashFind s (taskKey t)) hmono t0 ht0all
          (by simp only [Bool.not_eq_true']
              rw [← Bool.not_eq_true]
              intro hfind
              exact ht0fresh ((hashFind_iff s (taskKey t0)).mp hfind))
          (by simp only [Bool.not_eq_true', Bool.not_eq_false]
              exact (hashFind_iff _ _).mpr ht0new)
        omega
      · rw [schedLoop_succ_fail execOk all fuel s hempty hexec]
        simp

/-- On the normal exit, the final completed set is a fixpoint: one more scan
would find no ready task. -/
theorem schedLoop_stuck (execOk : List Task → Bool) (all : List Task) :
    ∀ fuel s,
      (schedLoop execOk all fuel s).outcome = .ok →
      (scanTasks all (schedLoop execOk all fuel s).completed).1 = [] := by
  intro fuel
  induction fuel with
  | zero => intro s h; simp [schedLoop] at h
  | succ fuel ih =>
    intro s h
    by_cases hempty : (scanTasks all s).1 = []
    · rw [schedLoop_succ_empty execOk all fuel s hempty] at h ⊢
      exact hempty
    · by_cases hexec : execOk (scanTasks all s).1 = true
      · rw [schedLoop_succ_exec execOk all fuel s hempty hexec] at h ⊢
        exact ih (scanTasks all s).2 h
      · rw [schedLoop_succ_fail execOk all fuel s hempty hexec] at h
        simp at h

/-- Outcome vs. executor verdicts: on a normal exit every dispatched wave
succeeded; on a failed run the failing wave is the last one dispatched and
every earlier wave succeeded. -/
theorem schedLoop_exec_verdicts (execOk : List Task → Bool)
    (all : List Task) :
    ∀ fuel s,
      ((schedLoop execOk all fuel s).outcome = .ok →
        ∀ w ∈ (schedLoop execOk all fuel s).waves, execOk w = true) ∧
      ((schedLoop execOk all fuel s).outcome = .execFailed →
        ∃ pre last, (schedLoop execOk all fuel s).waves = pre ++ [last] ∧
          execOk last = false ∧ ∀ w ∈ pre, execOk w = true) := by
  intro fuel
  induction fuel with
  | zero => intro s; constructor <;> (intro h; simp [schedLoop] at h)
  | succ fuel ih =>
    intro s
    by_cases hempty : (scanTasks all s).1 = []
    · rw [schedLoop_succ_empty execOk all fuel s hempty]
      constructor
      · intro _ w hw; cases hw
      · intro h; cases h
    · by_cases hexec : execOk (scanTasks all s).1 = true
      · rw [schedLoop_succ_exec execOk all fuel s hempty hexec]
        obtain ⟨ihok, ihfail⟩ := ih (scanTasks all s).2
        constructor
        · intro h w hw
          rcases List.mem_cons.mp hw with rfl | hw1
          · exact hexec
          · exact ihok h w hw1
        · intro h
          obtain ⟨pre, last, hwaves, hlast, hpre⟩ := ihfail h
          refine ⟨(scanTasks all s).1 :: pre, last, ?_, hlast, ?_⟩
          · simp [hwaves]
          · intro w hw
            rcases List.mem_cons.mp hw with rfl | hw1
            · exact hexec
            · exact hpre w hw1
      · rw [schedLoop_succ_fail execOk all fuel s hempty hexec]
        constructor
        · intro h; cases h
        · intro _
          exact ⟨[], (scanTasks all s).1, by simp,
            Bool.eq_false_iff.mpr hexec, by simp⟩

/-- A dependency is structurally smaller than the task depending on it. -/
theorem sizeOf_dep_lt (t d : Task) (h : d ∈ t.dependedTaskList) :
    sizeOf d < sizeOf t := by
  cases t with
  | mk j i ty deps q pl pid uid =>
    simp only [Task.dependedTaskList] at h
    have h1 := List.sizeOf_lt_of_mem h
    simp only [Task.mk.sizeOf_spec]
    omega

/-- Completeness at a stuck completed set: if each dependency of each task is
a member of the task collection, and no task is ready, then every task of the
collection is completed.  (The depended-on tasks being members of the
collection makes an identity-level dependency cycle impossible, since
membership in `dependedTaskList` is structural.) -/
theorem completed_of_stuck (all : List Task) (C : CompletedSet)
    (closure : ∀ t ∈ all, ∀ d ∈ t.dependedTaskList, d ∈ all)
    (stuck : ∀ t ∈ all,
      IsAllDependencyCompleted t C = false ∨ taskKey t ∈ C) :
    ∀ t ∈ all, taskKey t ∈ C := by
  have main : ∀ n t, sizeOf t < n → t ∈ all → taskKey t ∈ C := by
    intro n
    induction n with
    | zero => intro t h; exact absurd h (Nat.not_lt_zero _)
    | succ n ih =>
      intro t hlt htall
      rcases stuck t htall with hdep | hmem
      · obtain ⟨d, hdmem, hdfind⟩ :
            ∃ d ∈ t.dependedTaskList, ¬hashFind C (taskKey d) = true := by
          by_contra hc
          push_neg at hc
          have : IsAllDependencyCompleted t C = true :=
            List.all_eq_true.mpr fun d hd => hc d hd
          rw [this] at hdep
          cases hdep
        have hdsize := sizeOf_dep_lt t d hdmem
        have hdC := ih d (by omega) (closure t htall d hdmem)
        exact absurd ((hashFind_iff C (taskKey d)).mpr hdC) hdfind
      · exact hmem
  exact fun t ht => main (sizeOf t + 1) t (Nat.lt_succ_self _) ht

/-! ### Lemmas about job-id collection and command generation -/

theorem mem_firstSeenDedup (l : List Nat) (x : Nat) :
    x ∈ firstSeenDedup l ↔ x ∈ l := by
  have main : ∀ (n : Nat) (l : List Nat), l.length < n →
      (x ∈ firstSeenDedup l ↔ x ∈ l) := by
    intro n
    induction n with
    | zero => intro l h; omega
    | succ n ih =>
      intro l hl
      cases l with
      | nil => simp [firstSeenDedup]
      | cons a as =>
        rw [firstSeenDedup]
        have hlen : (as.filter fun y => y ≠ a).length < n := by
          have := List.length_filter_le (fun y => decide (y ≠ a)) as
          simp only [List.length_cons] at hl
          omega
        have ihf := ih _ hlen
        by_cases hx : x = a
        · subst hx; simp
        · simp only [List.mem_cons, hx, false_or]
          rw [ihf, List.mem_filter]
          simp [hx]
  exact main (l.length + 1) l (Nat.lt_succ_self _)

theorem nodup_firstSeenDedup (l : List Nat) :
    (firstSeenDedup l).Nodup := by
  have main : ∀ (n : Nat) (l : List Nat), l.length < n →
      (firstSeenDedup l).Nodup := by
    intro n
    induction n with
    | zero => intro l h; omega
    | succ n ih =>
      intro l hl
      cases l with
      | nil => simp [firstSeenDedup]
      | cons a as =>
        rw [firstSeenDedup]
        have hlen : (as.filter fun y => y ≠ a).length < n := by
          have := List.length_filter_le (fun y => decide (y ≠ a)) as
          simp only [List.length_cons] at hl
          omega
        refine List.nodup_cons.mpr ⟨?_, ih _ hlen⟩
        intro hmem
        rw [mem_firstSeenDedup, List.mem_filter] at hmem
        simpa using hmem.2
  exact main (l.length + 1) l (Nat.lt_succ_self _)

/-- The job-id accumulation of `CreateJobIds`, characterized against the
first-seen dedup of the job-id sequence. -/
theorem CreateJobIds_foldl (tasks : List Task) :
    ∀ acc : List Nat,
      tasks.foldl
        (fun jobIds task =>
          if DoesJobIDExist jobIds task.jobId then jobIds
          else jobIds ++ [task.jobId]) acc =
      acc ++ firstSeenDedup
        ((tasks.map Task.jobId).filter fun x => !acc.contains x) := by
  induction tasks with
  | nil => intro acc; simp [firstSeenDedup]
  | cons t ts ih =>
    intro acc
    simp only [List.foldl_cons, List.map_cons]
    by_cases hmem : t.jobId ∈ acc
    · have hc : DoesJobIDExist acc t.jobId = true := by
        simpa [DoesJobIDExist, List.elem_iff] using hmem
      rw [hc, if_pos rfl]
      rw [ih acc]
      congr 2
      rw [List.filter_cons_of_neg (by simp [hmem])]
    · have hc : ¬DoesJobIDExist acc t.jobId = true := by
        simpa [DoesJobIDExist, List.elem_iff] using hmem
      rw [if_neg hc]
      rw [ih (acc ++ [t.jobId])]
      rw [List.filter_cons_of_pos (by simp [hmem])]
      rw [firstSeenDedup]
      rw [List.filter_filter]
      have hcongr :
          ((ts.map Task.jobId).filter fun y =>
              !(acc ++ [t.jobId]).contains y) =
            ((ts.map Task.jobId).filter fun y =>
              decide (y ≠ t.jobId) && !acc.contains y) := by
        apply List.filter_congr
        intro y _
        by_cases h1 : y ∈ acc
        · simp [h1]
        · by_cases h2 : y = t.jobId
          · simp [h1, h2]
          · simp [h1, h2]
      rw [hcongr]
      simp

/-- `CreateJobIds` computes the distinct merge-task job ids in first-seen
order. -/
theorem CreateJobIds_eq (mergeTasks : List Task) :
    CreateJobIds mergeTasks = firstSeenDedup (mergeTasks.map Task.jobId) := by
  rw [CreateJobIds, CreateJobIds_foldl]
  simp

theorem GenerateCommand_eq (jobIds : List Nat) (tmpl : Nat → String) :
    GenerateCommand jobIds tmpl = concatStatements jobIds tmpl := by
  have aux : ∀ (js : List Nat) (acc : String),
      js.foldl (fun a j => a ++ tmpl j) acc =
        acc ++ concatStatements js tmpl := by
    intro js
    induction js with
    | nil => intro acc; simp [concatStatements, String.append_empty]
    | cons j js ih =>
      intro acc
      rw [List.foldl_cons, ih (acc ++ tmpl j), concatStatements,
        String.append_assoc]
  have h := aux jobIds ""
  rw [GenerateCommand, h]
  exact String.empty_append _

/-- Counting helper: in a duplicate-free list every member occurs once. -/
theorem count_eq_one_of_mem_nodup {α : Type} [BEq α] [LawfulBEq α]
    {l : List α} {a : α} (h : l.Nodup) (m : a ∈ l) : l.count a = 1 := by
  induction l with
  | nil => cases m
  | cons b l ih =>
    rw [List.count_cons]
    rcases List.mem_cons.mp m with rfl | m1
    · have h0 : l.count a = 0 :=
        List.count_eq_zero.mpr (List.nodup_cons.mp h).1
      simp [h0]
    · have hb : b ∉ l := (List.nodup_cons.mp h).1
      have hne : ¬(a == b) = true := by
        intro hab
        exact hb (by rw [← eq_of_beq hab]; exact m1)
      rw [ih (List.nodup_cons.mp h).2 m1]
      simp [hne]
      intro hba
      exact hne (by rw [hba]; simp)

/-- With an executor that always succeeds, the scheduler always reaches the
normal empty-batch exit: the fuel bound never fires and no wave fails. -/
theorem exec_always_ok_outcome (allTasks topLevelTasks : List Task) :
    (ExecuteTasksInDependencyOrder (fun _ => true) allTasks
      topLevelTasks).outcome = .ok := by
  have hfuel :
      ((allTasks.filter fun t =>
        !hashFind (AddCompletedTasks topLevelTasks []) (taskKey t)).length) <
        allTasks.length + 1 :=
    Nat.lt_succ_of_le (List.length_filter_le _ _)
  have hnf := schedLoop_no_fuel_exhaustion (fun _ => true) allTasks
    (allTasks.length + 1) (AddCompletedTasks topLevelTasks []) hfuel
  have hverd := (schedLoop_exec_verdicts (fun _ => true) allTasks
    (allTasks.length + 1) (AddCompletedTasks topLevelTasks [])).2
  rw [ExecuteTasksInDependencyOrder]
  cases houtcome : (schedLoop (fun _ => true) allTasks (allTasks.length + 1)
      (AddCompletedTasks topLevelTasks [])).outcome with
  | ok => rfl
  | execFailed =>
    obtain ⟨pre, last, _, hfalse, _⟩ := hverd houtcome
    simp at hfalse
  | outOfFuel => exact absurd houtcome hnf

/-! ### Claim theorems -/

/-- C1 (counterexample): with the full task collection scanned in the order
[T1, T2, T3], `ExecuteTasksInDependencyOrder` dispatches T3 in the *same*
wave as its dependencies T1 and T2 — a single wave {T1, T2, T3} — rather
than the waves {T1, T2} followed by {T3} the claim requires: the claim that
every task is dispatched strictly after every wave containing one of its
dependencies is false.  (The cause is the `HASH_ENTER` inside
`IsTaskAlreadyCompleted`, which marks a task completed already while the
batch is being collected.) -/
theorem scenarioA_single_wave_counterexample :
    (ExecuteTasksInDependencyOrder (fun _ => true) [T1, T2, T3] []).waves =
        [[T1, T2, T3]] ∧
      (ExecuteTasksInDependencyOrder (fun _ => true) [T1, T2, T3] []).waves ≠
        [[T1, T2], [T3]] := by
  have h1 : (ExecuteTasksInDependencyOrder (fun _ => true) [T1, T2, T3]
      []).waves = [[T1, T2, T3]] := rfl
  refine ⟨h1, ?_⟩
  rw [h1]
  intro h
  have hlen := congrArg List.length h
  simp at hlen

/-- C1 (amended): every dependency of a dispatched task is either a seeded
top-level identity or was dispatched no later — in an earlier wave, or
earlier in the same wave ("strictly after" holds only wave-to-wave when the
dependency does not precede the dependent in the same scan).  For scenario A
with scan order [T3, T1, T2] (each task scanned before its dependencies) the
code does produce exactly the waves {T1, T2} then {T3}. -/
theorem scheduler_wave_dependency_order :
    (∀ (execOk : List Task → Bool) (allTasks topLevelTasks : List Task)
        (pre : List (List Task)) (w : List Task) (rest : List (List Task))
        (wpre : List Task) (t : Task) (wpost : List Task),
      (ExecuteTasksInDependencyOrder execOk allTasks topLevelTasks).waves =
          pre ++ w :: rest →
      w = wpre ++ t :: wpost →
      ∀ d ∈ t.dependedTaskList,
        taskKey d ∈ topLevelTasks.map taskKey ∨
          taskKey d ∈ (pre.flatten ++ wpre).map taskKey) ∧
    (ExecuteTasksInDependencyOrder (fun _ => true) [T3, T1, T2] []).waves =
      [[T1, T2], [T3]] := by
  constructor
  · intro execOk allTasks topLevelTasks pre w rest wpre t wpost hwaves hw d hd
    have hmain := schedLoop_deps execOk allTasks (allTasks.length + 1)
      (AddCompletedTasks topLevelTasks []) pre w rest wpre t wpost hwaves hw
      d hd
    rcases hmain with hin | hin
    · left
      rcases (mem_AddCompletedTasks topLevelTasks [] (taskKey d)).mp hin
        with h0 | h0
      · cases h0
      · exact h0
    · exact Or.inr hin
  · rfl

/-- C1 (witness for the amended theorem): in the two-wave run of scenario A
with scan order [T3, T1, T2], the dependency T1 of the second-wave task T3
was dispatched in the first wave. -/
theorem scheduler_wave_dependency_order_witness :
    taskKey T1 ∈ (([] : List Task)).map taskKey ∨
      taskKey T1 ∈
        ((([[T1, T2]] : List (List Task))).flatten ++
          ([] : List Task)).map taskKey :=
  scheduler_wave_dependency_order.1 (fun _ => true) [T3, T1, T2] []
    [[T1, T2]] [T3] [] [] T3 [] rfl rfl T1
    (List.mem_cons_self _ _)

/-- C3: a task of the top-level task list never appears in any dispatched
batch: the completed set is seeded with every top-level identity before the
first scan, and a task whose identity is in the completed set is never
batched. -/
theorem top_level_tasks_never_dispatched (execOk : List Task → Bool)
    (allTasks topLevelTasks : List Task) (w : List Task)
    (hw : w ∈ (ExecuteTasksInDependencyOrder execOk allTasks
      topLevelTasks).waves)
    (tl : Task) (htl : tl ∈ topLevelTasks) : tl ∉ w := by
  intro htlw
  obtain ⟨-, hfresh, -, -, -⟩ := schedLoop_spec execOk allTasks
    (allTasks.length + 1) (AddCompletedTasks topLevelTasks [])
  have hmem : taskKey tl ∈
      (((ExecuteTasksInDependencyOrder execOk allTasks
        topLevelTasks).waves.flatten).map taskKey) :=
    List.mem_map_of_mem _ (List.mem_flatten.mpr ⟨w, hw, htlw⟩)
  refine hfresh (taskKey tl) hmem ?_
  exact (mem_AddCompletedTasks topLevelTasks [] (taskKey tl)).mpr
    (Or.inr (List.mem_map_of_mem _ htl))

/-- C3 (witness): with top-level task T1 and collection [T1, T2, T3], the
single dispatched wave [T2, T3] does not contain T1. -/
theorem top_level_tasks_never_dispatched_witness :
    T1 ∉ ([T2, T3] : List Task) :=
  top_level_tasks_never_dispatched (fun _ => true) [T1, T2, T3] [T1]
    [T2, T3] (List.mem_singleton_self _) T1 (List.mem_singleton_self _)

/-- C2: on a collection whose dependency entries are all members of the
collection (a valid DAG — membership of the dependency values rules out
identity cycles), a run that reaches the normal exit has dispatched every
non-top-level task's identity in exactly one batch: never twice, and never
left undispatched. -/
theorem scheduler_executes_each_task_exactly_once
    (execOk : List Task → Bool) (allTasks topLevelTasks : List Task)
    (closure : ∀ t ∈ allTasks, ∀ d ∈ t.dependedTaskList, d ∈ allTasks)
    (hok : (ExecuteTasksInDependencyOrder execOk allTasks
      topLevelTasks).outcome = .ok)
    (t : Task) (ht : t ∈ allTasks)
    (htop : taskKey t ∉ topLevelTasks.map taskKey) :
    ((((ExecuteTasksInDependencyOrder execOk allTasks
      topLevelTasks).waves.flatten).map taskKey).count (taskKey t)) = 1 := by
  obtain ⟨hc, hfresh, hnodup, -, -⟩ := schedLoop_spec execOk allTasks
    (allTasks.length + 1) (AddCompletedTasks topLevelTasks [])
  have hstuck := schedLoop_stuck execOk allTasks (allTasks.length + 1)
    (AddCompletedTasks topLevelTasks []) hok
  have hstuckcond := scanTasks_empty_stuck allTasks _ hstuck
  have hcomp := completed_of_stuck allTasks _ closure hstuckcond t ht
  rw [hc] at hcomp
  rcases List.mem_append.mp hcomp with hmem | hmem
  · exfalso
    rcases (mem_AddCompletedTasks topLevelTasks [] (taskKey t)).mp hmem
      with h0 | h0
    · cases h0
    · exact htop h0
  · exact count_eq_one_of_mem_nodup hnodup hmem

/-- C2 (witness): in the run on [T3, T1, T2] with no top-level tasks, the
task T3 is dispatched exactly once. -/
theorem scheduler_executes_each_task_exactly_once_witness :
    ((((ExecuteTasksInDependencyOrder (fun _ => true) [T3, T1, T2]
      []).waves.flatten).map taskKey).count (taskKey T3)) = 1 :=
  scheduler_executes_each_task_exactly_once (fun _ => true) [T3, T1, T2] []
    (by
      intro t ht d hd
      rcases List.mem_cons.mp ht with rfl | ht1
      · have hd1 : d ∈ [T1, T2] := hd
        rcases List.mem_cons.mp hd1 with rfl | hd2
        · exact List.mem_cons_of_mem _ (List.mem_cons_self _ _)
        · rcases List.mem_cons.mp hd2 with rfl | hd3
          · exact List.mem_cons_of_mem _
              (List.mem_cons_of_mem _ (List.mem_cons_self _ _))
          · cases hd3
      · rcases List.mem_cons.mp ht1 with rfl | ht2
        · have hd1 : d ∈ ([] : List Task) := hd
          cases hd1
        · rcases List.mem_cons.mp ht2 with rfl | ht3
          · have hd1 : d ∈ ([] : List Task) := hd
            cases hd1
          · cases ht3)
    rfl T3 (List.mem_cons_self _ _) (by simp)

/-- C4: for a fetch task F whose sole dependency is the producing task P
with a nonempty placement list, the synthesized command substitutes, in
fixed order, P's job id, P's task id, F's partition id, F's upstream task
id, and the node name and port of P's *first* placement (later replicas are
never referenced — the conclusion does not depend on `ps`), and the result
is assigned to F's `queryString`. -/
theorem fetch_command_uses_first_placement
    (assertsEnabled : Bool) (F P : Task) (p1 : Placement)
    (ps : List Placement) (fs : List Task)
    (hdeps : F.dependedTaskList = [P])
    (hpl : P.taskPlacementList = p1 :: ps)
    (hFty : F.taskType = .mapOutputFetchTask)
    (hPty : P.taskType = .mapTask) :
    PutMapOutputFetchQueryStrings assertsEnabled (F :: fs) =
      (PutMapOutputFetchQueryStrings assertsEnabled fs).map
        (fun rest => setQueryString F
          (MAP_OUTPUT_FETCH_COMMAND P.jobId P.taskId F.partitionId
            F.upstreamTaskId p1.nodeName p1.nodePort) :: rest) := by
  have hm : MapFetchTaskQueryString assertsEnabled F P =
      .ok (MAP_OUTPUT_FETCH_COMMAND P.jobId P.taskId F.partitionId
        F.upstreamTaskId p1.nodeName p1.nodePort) := by
    rw [MapFetchTaskQueryString, hpl]
    simp [hFty, hPty]
  simp only [PutMapOutputFetchQueryStrings, hdeps, hm]
  cases hfs : PutMapOutputFetchQueryStrings assertsEnabled fs with
  | error e => simp [Except.map]
  | ok rest1 => simp [Except.map]

/-- C4 (witness): the fetch command for `fetchF` (sole dependency `mapP`,
placements host1 then host2) is built from host1. -/
theorem fetch_command_uses_first_placement_witness :
    PutMapOutputFetchQueryStrings true (fetchF :: []) =
      (PutMapOutputFetchQueryStrings true []).map
        (fun rest => setQueryString fetchF
          (MAP_OUTPUT_FETCH_COMMAND mapP.jobId mapP.taskId
            fetchF.partitionId fetchF.upstreamTaskId
            (Placement.mk "host1" 1234).nodeName
            (Placement.mk "host1" 1234).nodePort) :: rest) :=
  fetch_command_uses_first_placement true fetchF mapP ⟨"host1", 1234⟩
    [⟨"host2", 5678⟩] [] rfl rfl rfl rfl

/-- C8 (counterexample): the claim that every malformed fetch task (wrong
type, or dependency count ≠ 1) causes a fatal malformed-DAG error even in
non-debug builds is false: with assertions disabled a fetch task whose type
is merge is processed without any error, and even with assertions enabled a
fetch task with two dependency entries is processed without any error (the
second entry is silently ignored). -/
theorem malformed_fetch_no_error_counterexample :
    PutMapOutputFetchQueryStrings false [fetchWrongType] =
        .ok [setQueryString fetchWrongType
          (MAP_OUTPUT_FETCH_COMMAND 9 4 3 7 "host1" 1234)] ∧
      PutMapOutputFetchQueryStrings true [fetchTwoDeps] =
        .ok [setQueryString fetchTwoDeps
          (MAP_OUTPUT_FETCH_COMMAND 9 4 3 7 "host1" 1234)] :=
  ⟨rfl, rfl⟩

/-- C8 (amended): the malformed-fetch checks are exactly these: an empty
dependency list crashes (null `linitial`, not a clean error); a first
dependency with an empty placement list crashes; the type preconditions are
enforced by assertions only — with assertions enabled a wrong fetch-task
type or wrong dependency type fails the assertion, while with assertions
disabled the command is synthesized from the first dependency entry
regardless of the types, and extra dependency entries are always silently
ignored. -/
theorem malformed_fetch_behaviour
    (assertsEnabled : Bool) (F P : Task) (ds fs : List Task)
    (p1 : Placement) (ps : List Placement) :
    (F.dependedTaskList = [] →
      PutMapOutputFetchQueryStrings assertsEnabled (F :: fs) =
        .error .crash) ∧
    (F.dependedTaskList = P :: ds → P.taskPlacementList = [] →
      PutMapOutputFetchQueryStrings assertsEnabled (F :: fs) =
        .error .crash) ∧
    (F.dependedTaskList = P :: ds → P.taskPlacementList = p1 :: ps →
      ¬F.taskType = .mapOutputFetchTask →
      PutMapOutputFetchQueryStrings true (F :: fs) =
        .error .assertionFailure) ∧
    (F.dependedTaskList = P :: ds → P.taskPlacementList = p1 :: ps →
      F.taskType = .mapOutputFetchTask → ¬P.taskType = .mapTask →
      PutMapOutputFetchQueryStrings true (F :: fs) =
        .error .assertionFailure) ∧
    (F.dependedTaskList = P :: ds → P.taskPlacementList = p1 :: ps →
      PutMapOutputFetchQueryStrings false (F :: fs) =
        (PutMapOutputFetchQueryStrings false fs).map
          (fun rest => setQueryString F
            (MAP_OUTPUT_FETCH_COMMAND P.jobId P.taskId F.partitionId
              F.upstreamTaskId p1.nodeName p1.nodePort) :: rest)) := by
  refine ⟨?_, ?_, ?_, ?_, ?_⟩
  · intro hdeps
    simp [PutMapOutputFetchQueryStrings, hdeps]
  · intro hdeps hpl
    have hm : MapFetchTaskQueryString assertsEnabled F P = .error .crash := by
      rw [MapFetchTaskQueryString, hpl]
    simp [PutMapOutputFetchQueryStrings, hdeps, hm]
  · intro hdeps hpl hFty
    have hm : MapFetchTaskQueryString true F P =
        .error .assertionFailure := by
      rw [MapFetchTaskQueryString, hpl]
      simp [hFty]
    simp [PutMapOutputFetchQueryStrings, hdeps, hm]
  · intro hdeps hpl hFty hPty
    have hm : MapFetchTaskQueryString true F P =
        .error .assertionFailure := by
      rw [MapFetchTaskQueryString, hpl]
      simp [hFty, hPty]
    simp [PutMapOutputFetchQueryStrings, hdeps, hm]
  · intro hdeps hpl
    have hm : MapFetchTaskQueryString false F P =
        .ok (MAP_OUTPUT_FETCH_COMMAND P.jobId P.taskId F.partitionId
          F.upstreamTaskId p1.nodeName p1.nodePort) := by
      rw [MapFetchTaskQueryString, hpl]
      simp
    simp only [PutMapOutputFetchQueryStrings, hdeps, hm]
    cases hfs : PutMapOutputFetchQueryStrings false fs with
    | error e => simp [Except.map]
    | ok rest1 => simp [Except.map]

/-- C8 (witness for the amended theorem): with assertions enabled, the
merge-typed fetch task `fetchWrongType` fails the assertion. -/
theorem malformed_fetch_behaviour_witness :
    PutMapOutputFetchQueryStrings true (fetchWrongType :: []) =
      .error .assertionFailure :=
  (malformed_fetch_behaviour true fetchWrongType mapP [] []
    ⟨"host1", 1234⟩ [⟨"host2", 5678⟩]).2.2.1 rfl rfl (by decide)

/-- C5: the provisioning command contains exactly one create-namespace
statement per distinct job id among the merge tasks, with no duplicates, in
first-seen order; merge tasks with job ids [5, 5, 7] yield the statements
for job 5 then job 7 and nothing else. -/
theorem create_schema_command_per_distinct_jobid
    (mergeTasks : List Task) :
    CreateJobIds mergeTasks = firstSeenDedup (mergeTasks.map Task.jobId) ∧
    (CreateJobIds mergeTasks).Nodup ∧
    (∀ j, j ∈ CreateJobIds mergeTasks ↔ j ∈ mergeTasks.map Task.jobId) ∧
    GenerateCreateSchemasCommand (CreateJobIds mergeTasks) =
      concatStatements (firstSeenDedup (mergeTasks.map Task.jobId))
        WORKER_CREATE_SCHEMA_QUERY ∧
    CreateJobIds [M5a, M5b, M7] = [5, 7] ∧
    GenerateCreateSchemasCommand (CreateJobIds [M5a, M5b, M7]) =
      WORKER_CREATE_SCHEMA_QUERY 5 ++ WORKER_CREATE_SCHEMA_QUERY 7 := by
  refine ⟨CreateJobIds_eq mergeTasks, ?_, ?_, ?_, rfl, ?_⟩
  · rw [CreateJobIds_eq]
    exact nodup_firstSeenDedup _
  · intro j
    rw [CreateJobIds_eq]
    exact mem_firstSeenDedup _ j
  · rw [GenerateCreateSchemasCommand, GenerateCommand_eq, CreateJobIds_eq]
  · rfl

/-- C6: when a data-modifying statement has already run in the enclosing
unit of work, `ExecuteDependedTasks` fails immediately with the
precondition-violation error and the event trace is empty: zero broadcasts
and zero dispatches are performed. -/
theorem prior_modification_aborts_before_any_broadcast
    (workers : List WorkerNode) (owner : String) (execOk : List Task → Bool)
    (expand : List Task → List Task) (topLevelTasks : List Task) :
    ExecuteDependedTasks true workers owner execOk expand topLevelTasks =
      ([], .error .modificationError) := rfl

/-- C7: `RemoveTempJobDirs` runs only when the scheduler reaches the normal
exit, and then with exactly the job-id collection the provisioning phase
computed; when a dispatched wave fails, the failing wave is the last one
dispatched (no later wave), the reclamation broadcast never appears in the
trace, and the run ends in failure. -/
theorem reclamation_only_after_successful_run
    (workers : List WorkerNode) (owner : String) (execOk : List Task → Bool)
    (expand : List Task → List Task) (topLevelTasks : List Task) :
    ((ExecuteTasksInDependencyOrder execOk (expand topLevelTasks)
        topLevelTasks).outcome = .ok →
      ExecuteDependedTasks false workers owner execOk expand topLevelTasks =
        ((CreateTemporarySchemas workers owner
            (mergeTaskGroup (expand topLevelTasks))).1 ++
          dispatchEvents (ExecuteTasksInDependencyOrder execOk
            (expand topLevelTasks) topLevelTasks).waves ++
          RemoveTempJobDirs workers owner
            (CreateTemporarySchemas workers owner
              (mergeTaskGroup (expand topLevelTasks))).2,
          .ok ())) ∧
    ((ExecuteTasksInDependencyOrder execOk (expand topLevelTasks)
        topLevelTasks).outcome = .execFailed →
      (ExecuteDependedTasks false workers owner execOk expand topLevelTasks =
        ((CreateTemporarySchemas workers owner
            (mergeTaskGroup (expand topLevelTasks))).1 ++
          dispatchEvents (ExecuteTasksInDependencyOrder execOk
            (expand topLevelTasks) topLevelTasks).waves,
          .error .taskExecutionError)) ∧
      ∃ pre last,
        (ExecuteTasksInDependencyOrder execOk (expand topLevelTasks)
          topLevelTasks).waves = pre ++ [last] ∧
        execOk last = false ∧ ∀ w ∈ pre, execOk w = true) := by
  constructor
  · intro hok
    simp [ExecuteDependedTasks, hok]
  · intro hfail
    refine ⟨by simp [ExecuteDependedTasks, hfail], ?_⟩
    exact (schedLoop_exec_verdicts execOk (expand topLevelTasks)
      ((expand topLevelTasks).length + 1)
      (AddCompletedTasks topLevelTasks [])).2 hfail

/-- C7 (witness): with a single task whose dispatch fails, the run performs
the provisioning broadcast and the failing dispatch, no reclamation, and
ends in failure; the failing wave is the last one. -/
theorem reclamation_only_after_successful_run_witness :
    (ExecuteDependedTasks false [worker1] "citus" (fun _ => false)
        (fun _ => [T1]) [] =
      ((CreateTemporarySchemas [worker1] "citus" (mergeTaskGroup [T1])).1 ++
        dispatchEvents (ExecuteTasksInDependencyOrder (fun _ => false)
          [T1] []).waves,
        .error .taskExecutionError)) ∧
    ∃ pre last,
      (ExecuteTasksInDependencyOrder (fun _ => false) [T1] []).waves =
        pre ++ [last] ∧
      (fun _ : List Task => false) last = false ∧
      ∀ w ∈ pre, (fun _ : List Task => false) w = true :=
  (reclamation_only_after_successful_run [worker1] "citus" (fun _ => false)
    (fun _ => [T1]) []).2 rfl

/-- C10: the provisioning phase sends exactly one single-transaction command
list to each active readable worker, in worker-list order, independent of
the number of distinct job ids; with no merge tasks the command list sent to
every worker is the one containing just the empty string. -/
theorem provisioning_contacts_each_worker_once
    (workers : List WorkerNode) (owner : String) (mergeTasks : List Task) :
    (CreateTemporarySchemas workers owner mergeTasks).1 =
      workers.map (fun w => Event.sendToWorker w.workerName w.workerPort
        owner [GenerateCreateSchemasCommand (CreateJobIds mergeTasks)]) ∧
    (mergeTasks = [] →
      (CreateTemporarySchemas workers owner mergeTasks).1 =
        workers.map (fun w => Event.sendToWorker w.workerName w.workerPort
          owner [""])) := by
  constructor
  · rfl
  · intro h
    subst h
    rfl

/-- C10 (witness): with one worker and no merge tasks, the provisioning
phase sends that worker exactly the empty-string command list. -/
theorem provisioning_contacts_each_worker_once_witness :
    (CreateTemporarySchemas [worker1] "citus" []).1 =
      [worker1].map (fun w => Event.sendToWorker w.workerName w.workerPort
        "citus" [""]) :=
  (provisioning_contacts_each_worker_once [worker1] "citus" []).2 rfl

/-- C9: the readiness scan yielding an empty batch makes the scheduler exit
without an error, whether all tasks completed or some tasks remained
permanently unready: with an always-succeeding executor the outcome is
always the normal exit, and on the identity-level dependency cycle
{cyclicA, cyclicB} the run dispatches nothing, reports the normal exit, and
leaves cyclicA uncompleted — indistinguishable at the exit from genuine
completion, with no post-loop completeness check. -/
theorem empty_batch_silent_success :
    (∀ allTasks topLevelTasks : List Task,
      (ExecuteTasksInDependencyOrder (fun _ => true) allTasks
        topLevelTasks).outcome = .ok) ∧
    (ExecuteTasksInDependencyOrder (fun _ => true) [cyclicA, cyclicB]
      []).waves = [] ∧
    (ExecuteTasksInDependencyOrder (fun _ => true) [cyclicA, cyclicB]
      []).outcome = .ok ∧
    taskKey cyclicA ∉
      (ExecuteTasksInDependencyOrder (fun _ => true) [cyclicA, cyclicB]
        []).completed := by
  refine ⟨exec_always_ok_outcome, rfl, rfl, ?_⟩
  have hc : (ExecuteTasksInDependencyOrder (fun _ => true) [cyclicA, cyclicB]
      []).completed = [] := rfl
  rw [hc]
  simp

end Citus
